import Mathlib

set_option maxRecDepth 16384

/-!
Verification development for the NewsBiasDetector browser extension
(`src/bias-detector/service-worker.js`, `src/bias-detector/content-script.js`).

The JavaScript source is shallowly embedded over `List Char`:
strings are lists of characters, the JSON value space is an inductive
type, and every stage of the response-recovery pipeline in
`callGeminiAPI` is a computable Lean function mirroring the code.
-/

/-- The set of whitespace characters recognised by the JavaScript `\s`
regex class and `String.prototype.trim` (restricted to the ASCII range;
the exotic Unicode space characters never occur in the texts treated
here). -/
def isWs (c : Char) : Bool :=
  c = ' ' || c = '\t' || c = '\n' || c = '\r' || c = '\x0b' || c = '\x0c'

/-- Collapsing scanner for the JS `replace(/\s+/g, ' ')`: the Bool flag
records whether we are inside a whitespace run that has already emitted
its single replacement space. -/
def collapseWsGo : Bool → List Char → List Char
  | _, [] => []
  | inRun, c :: r =>
    if isWs c then
      if inRun then collapseWsGo true r else ' ' :: collapseWsGo true r
    else c :: collapseWsGo false r

/-- JS `s.replace(/\s+/g, ' ')`: every maximal whitespace run becomes a
single space. -/
def collapseWs (l : List Char) : List Char := collapseWsGo false l

/-- JS `s.replace(/\n/g, ' ')`. -/
def nlToSpace (l : List Char) : List Char :=
  l.map fun c => if c = '\n' then ' ' else c

/-- JS `String.prototype.trim` on both ends (ASCII whitespace). -/
def trimWs (l : List Char) : List Char :=
  ((l.dropWhile isWs).reverse.dropWhile isWs).reverse

/-- Boolean test that `p` is an initial segment of `l` (used to mirror
regex literal alternatives). -/
def leads : List Char → List Char → Bool
  | [], _ => true
  | _ :: _, [] => false
  | p :: ps, c :: cs => p = c && leads ps cs

/-- Fence marker `"```json\n"` (first regex alternative with its greedy
optional newline). -/
def fenceJsonNl : List Char := "```json\n".data

/-- Fence marker `"```json"` (first regex alternative without the
optional newline). -/
def fenceJson : List Char := "```json".data

/-- Fence marker `"\n```"` (second regex alternative with its greedy
optional leading newline). -/
def fenceNlTicks : List Char := "\n```".data

/-- Fence marker `"```"` (second regex alternative, bare). -/
def fenceTicks : List Char := "```".data

/-- Scanner for the JS global replace
`responseText.replace(/```json\n?|\n?```/g, '')` in `callGeminiAPI`.
The first argument is the number of characters still to swallow from a
match already recognised; at skip state 0 the four alternatives are
tried in the regex engine's order (first alternative with greedy `\n?`
first). -/
def sfGo : Nat → List Char → List Char
  | _ + 1, [] => []
  | n + 1, _ :: r => sfGo n r
  | 0, [] => []
  | 0, c :: r =>
    if leads fenceJsonNl (c :: r) then sfGo 7 r
    else if leads fenceJson (c :: r) then sfGo 6 r
    else if leads fenceNlTicks (c :: r) then sfGo 3 r
    else if leads fenceTicks (c :: r) then sfGo 2 r
    else c :: sfGo 0 r

/-- Stage 1 of the recovery pipeline: markdown code-fence stripping,
`responseText.replace(/```json\n?|\n?```/g, '')`. -/
def stripFences (l : List Char) : List Char := sfGo 0 l

/-- The brace-delimited span used by stage 2: the segment of `t` from
its first `{` through its last `}` (empty when no such span exists).
This matches the greedy regex `/\{[\s\S]*\}/`, which matches iff a `{`
occurs before the final `}`. -/
def braceSpan (t : List Char) : List Char :=
  ((t.dropWhile (· ≠ '\x7b')).reverse.dropWhile (· ≠ '\x7d')).reverse

/-- Stage 2 of the recovery pipeline: object isolation via
`cleanedText.match(/\{[\s\S]*\}/)`; when the regex fails to match, the
text is left unchanged. -/
def extractSpan (t : List Char) : List Char :=
  if braceSpan t = [] then t else braceSpan t

/-- Splits off the run of characters strictly before the first `"` of
the list, together with what follows that quote; `none` when the list
holds no `"`. This is how the backtracking-free regex `"[^"]*"` finds
the end of a match that started at a quote. -/
def splitAtQuote : List Char → Option (List Char × List Char)
  | [] => none
  | c :: r =>
    if c = '"' then some ([], r)
    else
      match splitAtQuote r with
      | some (a, b) => some (c :: a, b)
      | none => none

/-- Replacement callback of stage 3, applied to each `"[^"]*"` match:
`match.replace(/\n/g, ' ').replace(/\s+/g, ' ')`. -/
def normMatch (m : List Char) : List Char := collapseWs (nlToSpace m)

/-- Fuelled scanner for the stage-3 global replace
`cleanedText.replace(/"[^"]*"/g, m => ...)`: at each `"` with a later
`"`, the enclosed match is rewritten by `normMatch` and scanning resumes
after the closing quote; a final unpaired `"` is left untouched. -/
def applyQuotedF : Nat → List Char → List Char
  | 0, l => l
  | f + 1, l =>
    match l with
    | [] => []
    | c :: r =>
      if c = '"' then
        match splitAtQuote r with
        | some (a, b) => normMatch ('"' :: a ++ ['"']) ++ applyQuotedF f b
        | none => c :: r
      else c :: applyQuotedF f r

/-- Stage 3 of the recovery pipeline: embedded-whitespace normalisation
inside quoted spans. The fuel `l.length` dominates the number of scanner
steps, each of which consumes at least one character. -/
def applyQuoted (l : List Char) : List Char := applyQuotedF l.length l

/-- Stage 4 of the recovery pipeline: bracket-balance repair. All four
bracket characters are counted over the whole candidate (including
occurrences inside string literals, exactly as the four
`match(/[...]/g)` counts do), and the deficits are appended — all `]`
before all `}`. -/
def repairBrackets (t : List Char) : List Char :=
  let openBraces := t.count '\x7b'
  let closeBraces := t.count '\x7d'
  let openBrackets := t.count '['
  let closeBrackets := t.count ']'
  t ++
    (if closeBrackets < openBrackets then
      List.replicate (openBrackets - closeBrackets) ']'
    else []) ++
    (if closeBraces < openBraces then
      List.replicate (openBraces - closeBraces) '\x7d'
    else [])

example : stripFences "```json\nabc\n```".data = "abc".data := by decide
example : stripFences "\n```json\nabc\n```".data = "json\nabc".data := by decide
example : extractSpan "xx\x7ba\x7dyy".data = "\x7ba\x7d".data := by decide
example : extractSpan "\x7d \x7b".data = "\x7d \x7b".data := by decide
example : applyQuoted "\x7b\"a\n  b\": 1\x7d".data = "\x7b\"a b\": 1\x7d".data := by
  decide
example : repairBrackets "\x7b\"a\":[1".data = "\x7b\"a\":[1]\x7d".data := by decide

/-- Structural content of a JSON number literal as accepted by
`JSON.parse`: sign, integer digits, fraction digits (empty when there is
no fraction) and optional exponent (sign and digits). Keeping the digit
strings avoids floating-point arithmetic; the only numeric observation
the pipeline makes is JS truthiness, i.e. comparison with zero. -/
structure JNum where
  neg : Bool
  digits : List Char
  frac : List Char
  exp : Option (Bool × List Char)
  deriving DecidableEq, Repr

/-- A JS number is falsy exactly when its value is zero (JSON literals
cannot denote NaN). Zero means every integer and fraction digit is `0`;
the exponent is then irrelevant. (Denormal underflow of tiny nonzero
literals to floating-point zero is not modelled.) -/
def JNum.isZero (n : JNum) : Bool :=
  n.digits.all (· = '0') && n.frac.all (· = '0')

/-- JSON values as produced by `JSON.parse`: strings are stored decoded
(escape sequences resolved) and objects are duplicate-free association
lists in JS property-insertion order. -/
inductive Json where
  | null : Json
  | bool : Bool → Json
  | num : JNum → Json
  | str : List Char → Json
  | arr : List Json → Json
  | obj : List (List Char × Json) → Json

/-- Property write on a JS object: an existing key keeps its position
and gets the new value, a fresh key is appended. This is both how
`JSON.parse` resolves duplicate keys (last value wins) and how the
pipeline's defaulting assignments behave. -/
def insertKV : List (List Char × Json) → List Char → Json → List (List Char × Json)
  | [], k, v => [(k, v)]
  | (k', v') :: r, k, v =>
    if k' = k then (k', v) :: r else (k', v') :: insertKV r k v

/-- Property read on a duplicate-free association list. -/
def lookupKV : List (List Char × Json) → List Char → Option Json
  | [], _ => none
  | (k', v') :: r, k => if k' = k then some v' else lookupKV r k

/-- JS property access `x.k` for the values `JSON.parse` can produce:
a defined property on objects, `undefined` (here `none`) on booleans,
numbers, strings and arrays. Access on `null` throws and is handled
separately by the callers. -/
def getProp : Json → List Char → Option Json
  | .obj fs, k => lookupKV fs k
  | _, _ => none

/-- JS property assignment `x.k = v`; a no-op on non-objects
(sloppy-mode silent failure, unreachable in the pipeline). -/
def setProp : Json → List Char → Json → Json
  | .obj fs, k, v => .obj (insertKV fs k v)
  | j, _, _ => j

/-- JS truthiness of a (possibly undefined) parsed value. -/
def truthy : Option Json → Bool
  | none => false
  | some .null => false
  | some (.bool b) => b
  | some (.num n) => !n.isZero
  | some (.str s) => !s.isEmpty
  | some (.arr _) => true
  | some (.obj _) => true

/-- Hexadecimal digit value, for `\uXXXX` escapes. -/
def hexVal (c : Char) : Option Nat :=
  if '0' ≤ c ∧ c ≤ '9' then some (c.toNat - '0'.toNat)
  else if 'a' ≤ c ∧ c ≤ 'f' then some (c.toNat - 'a'.toNat + 10)
  else if 'A' ≤ c ∧ c ≤ 'F' then some (c.toNat - 'A'.toNat + 10)
  else none

/-- Decodes the four hex digits of a `\uXXXX` escape. -/
def hex4 (a b c d : Char) : Option Nat :=
  match hexVal a, hexVal b, hexVal c, hexVal d with
  | some x, some y, some z, some w => some (((x * 16 + y) * 16 + z) * 16 + w)
  | _, _, _, _ => none

/-- Fuelled string-body scanner of `JSON.parse`, entered after the
opening `"`: returns the decoded characters and the text after the
closing quote. Unescaped control characters are syntax errors; surrogate
pairs written as consecutive `\uXXXX` escapes decode to the single
astral character (a lone surrogate, invalid Unicode, degrades to
`Char.ofNat`'s default). Every step consumes at least one character, so
fuel `length + 1` always suffices. -/
def parseStrRestF : Nat → List Char → Option (List Char × List Char)
  | 0, _ => none
  | _ + 1, [] => none
  | _ + 1, '"' :: r => some ([], r)
  | f + 1, '\\' :: e :: r =>
    match e with
    | '"' => match parseStrRestF f r with
      | some (s, r') => some ('"' :: s, r') | none => none
    | '\\' => match parseStrRestF f r with
      | some (s, r') => some ('\\' :: s, r') | none => none
    | '/' => match parseStrRestF f r with
      | some (s, r') => some ('/' :: s, r') | none => none
    | 'b' => match parseStrRestF f r with
      | some (s, r') => some ('\x08' :: s, r') | none => none
    | 'f' => match parseStrRestF f r with
      | some (s, r') => some ('\x0c' :: s, r') | none => none
    | 'n' => match parseStrRestF f r with
      | some (s, r') => some ('\n' :: s, r') | none => none
    | 'r' => match parseStrRestF f r with
      | some (s, r') => some ('\r' :: s, r') | none => none
    | 't' => match parseStrRestF f r with
      | some (s, r') => some ('\t' :: s, r') | none => none
    | 'u' =>
      match r with
      | a :: b :: c :: d :: r' =>
        match hex4 a b c d with
        | none => none
        | some v =>
          if 0xd800 ≤ v ∧ v ≤ 0xdbff then
            match r' with
            | '\\' :: 'u' :: a2 :: b2 :: c2 :: d2 :: r'' =>
              match hex4 a2 b2 c2 d2 with
              | some w =>
                if 0xdc00 ≤ w ∧ w ≤ 0xdfff then
                  match parseStrRestF f r'' with
                  | some (s, r3) =>
                    some (Char.ofNat (0x10000 + (v - 0xd800) * 0x400 + (w - 0xdc00)) :: s, r3)
                  | none => none
                else
                  match parseStrRestF f r' with
                  | some (s, r3) => some (Char.ofNat v :: s, r3) | none => none
              | none =>
                match parseStrRestF f r' with
                | some (s, r3) => some (Char.ofNat v :: s, r3) | none => none
            | _ =>
              match parseStrRestF f r' with
              | some (s, r3) => some (Char.ofNat v :: s, r3) | none => none
          else
            match parseStrRestF f r' with
            | some (s, r3) => some (Char.ofNat v :: s, r3) | none => none
      | _ => none
    | _ => none
  | f + 1, c :: r =>
    if c.toNat < 0x20 then none
    else match parseStrRestF f r with
      | some (s, r') => some (c :: s, r') | none => none

/-- String-body scanner entry point with adequate fuel. -/
def parseStrRest (l : List Char) : Option (List Char × List Char) :=
  parseStrRestF (l.length + 1) l

/-- Whitespace accepted between JSON tokens by `JSON.parse` (strictly
space, tab, line feed, carriage return). -/
def isJsonWs (c : Char) : Bool :=
  c = ' ' || c = '\t' || c = '\n' || c = '\r'

/-- Decimal digit test. -/
def isDigitCh (c : Char) : Bool := '0' ≤ c && c ≤ '9'

/-- Number token scanner of `JSON.parse` (strict JSON grammar: optional
`-`, `0` or a nonzero-led digit run, optional `.digits`, optional
exponent). Returns the structured literal and the unconsumed text. -/
def parseNum (l : List Char) : Option (JNum × List Char) :=
  let (neg, l1) : Bool × List Char :=
    match l with
    | '-' :: r => (true, r)
    | _ => (false, l)
  match l1 with
  | c :: r =>
    if c = '0' ∨ ('1' ≤ c ∧ c ≤ '9') then
      let (ds, r1) : List Char × List Char :=
        if c = '0' then ([c], r)
        else (c :: r.takeWhile isDigitCh, r.dropWhile isDigitCh)
      let (fr, r2) : Option (List Char) × List Char :=
        match r1 with
        | '.' :: r' =>
          let f := r'.takeWhile isDigitCh
          if f = [] then (none, r1) else (some f, r'.dropWhile isDigitCh)
        | _ => (some [], r1)
      match fr with
      | none => none
      | some fdigits =>
        match r2 with
        | 'e' :: r' => parseNumExp neg ds fdigits r'
        | 'E' :: r' => parseNumExp neg ds fdigits r'
        | _ => some (⟨neg, ds, fdigits, none⟩, r2)
    else none
  | [] => none
where
  /-- Exponent part after `e`/`E`. -/
  parseNumExp (neg : Bool) (ds fdigits : List Char) (r : List Char) :
      Option (JNum × List Char) :=
    let (eneg, r1) : Bool × List Char :=
      match r with
      | '-' :: r' => (true, r')
      | '+' :: r' => (false, r')
      | _ => (false, r)
    let eds := r1.takeWhile isDigitCh
    if eds = [] then none
    else some (⟨neg, ds, fdigits, some (eneg, eds)⟩, r1.dropWhile isDigitCh)

example : parseNum "-12.50e+3,x".data =
    some (⟨true, ['1', '2'], ['5', '0'], some (false, ['3'])⟩, [',', 'x']) := by
  decide
example : parseNum "01".data = some (⟨false, ['0'], [], none⟩, ['1']) := by decide
example : parseNum "1.".data = none := by decide

/-- Fuelled comma-separated item loop shared by the array and object
productions of `JSON.parse`: parses `item (',' item)* close` starting at
the first item (callers handle the empty case). `itemP` already folds in
the recursion into values at smaller value-fuel, so this definition is
recursive only in its own fuel. -/
def parseItemsF {α : Type} (itemP : List Char → Option (α × List Char))
    (close : Char) : Nat → List Char → List α → Option (List α × List Char)
  | 0, _, _ => none
  | f + 1, l, acc =>
    match itemP l with
    | none => none
    | some (a, r) =>
      match r.dropWhile isJsonWs with
      | [] => none
      | c :: r' =>
        if c = ',' then parseItemsF itemP close f (r'.dropWhile isJsonWs) (a :: acc)
        else if c = close then some ((a :: acc).reverse, r')
        else none

/-- Object member production `string ':' value` of `JSON.parse`. -/
def parseMember (valP : List Char → Option (Json × List Char))
    (l : List Char) : Option ((List Char × Json) × List Char) :=
  match l with
  | '"' :: r =>
    match parseStrRest r with
    | none => none
    | some (k, r1) =>
      match r1.dropWhile isJsonWs with
      | ':' :: r2 =>
        match valP (r2.dropWhile isJsonWs) with
        | some (v, r3) => some ((k, v), r3)
        | none => none
      | _ => none
  | _ => none

/-- Fuelled value parser of `JSON.parse` over the strict JSON grammar.
The fuel bounds the nesting depth; every nested value sits behind at
least one consumed character, so `length + 1` always suffices. -/
def parseValF : Nat → List Char → Option (Json × List Char)
  | 0, _ => none
  | f + 1, l =>
    match l.dropWhile isJsonWs with
    | 'n' :: 'u' :: 'l' :: 'l' :: r => some (.null, r)
    | 't' :: 'r' :: 'u' :: 'e' :: r => some (.bool true, r)
    | 'f' :: 'a' :: 'l' :: 's' :: 'e' :: r => some (.bool false, r)
    | '"' :: r =>
      match parseStrRest r with
      | some (s, r') => some (.str s, r')
      | none => none
    | '[' :: r =>
      match r.dropWhile isJsonWs with
      | ']' :: r' => some (.arr [], r')
      | r' =>
        match parseItemsF (parseValF f) ']' (r'.length + 1) r' [] with
        | some (xs, rest) => some (.arr xs, rest)
        | none => none
    | '\x7b' :: r =>
      match r.dropWhile isJsonWs with
      | '\x7d' :: r' => some (.obj [], r')
      | r' =>
        match parseItemsF (parseMember (parseValF f)) '\x7d' (r'.length + 1) r' [] with
        | some (kvs, rest) =>
          some (.obj (kvs.foldl (fun acc kv => insertKV acc kv.1 kv.2) []), rest)
        | none => none
    | l' =>
      match parseNum l' with
      | some (n, r) => some (.num n, r)
      | none => none

/-- Stage 5 of the recovery pipeline: `JSON.parse(cleanedText)`. Returns
the parsed value when the whole text (modulo surrounding JSON
whitespace) is one JSON value, `none` on any syntax error. -/
def parseJson (t : List Char) : Option Json :=
  match parseValF (t.length + 1) t with
  | some (v, rest) => if rest.dropWhile isJsonWs = [] then some v else none
  | none => none

example : parseJson "  \x7b \"a\" : [1, true, null], \"a\":2 \x7d ".data =
    some (.obj [(['a'], .num ⟨false, ['2'], [], none⟩)]) := rfl
example : parseJson "\x7b\"k\": \"x\ny\"\x7d".data = none := rfl
example : parseJson "\x7b\"k\": \"x\\ny\"\x7d".data =
    some (.obj [(['k'], .str ['x', '\n', 'y'])]) := rfl
example : parseJson "\x7b\x7d extra".data = none := rfl
example : parseJson "[0e5, 1e-2]".data =
    some (.arr [.num ⟨false, ['0'], [], some (false, ['5'])⟩,
      .num ⟨false, ['1'], [], some (true, ['2'])⟩]) := rfl

/-- Classified error kinds of the analysis core (the specification's
taxonomy in section 7). Thrown JS `Error` messages carry diagnostics on
top of the kind; only the classification is modelled. `jsTypeError`
stands for an uncaught JS `TypeError` escaping to the generic outer
handler (e.g. property access on `null`, or indexing an empty `parts`
array), which none of the named kinds cover. -/
inductive RecErr where
  | insufficientContent
  | missingCredential
  | requestFailed
  | contentBlocked
  | noResponse
  | truncatedResponse
  | invalidUpstreamShape
  | noJsonFound
  | malformedJson
  | missingRequiredField
  | pageAccessDenied
  | storageFailure
  | jsTypeError
  deriving DecidableEq, Repr

/-- Required-field key `credibility_score`. -/
def keyScore : List Char := "credibility_score".data

/-- Required-field key `reasoning_summary`. -/
def keySummary : List Char := "reasoning_summary".data

/-- Defaulted key `confidence`. -/
def keyConfidence : List Char := "confidence".data

/-- Defaulted key `political_leaning`. -/
def keyLeaning : List Char := "political_leaning".data

/-- Defaulted key `corroboration_analysis`. -/
def keyCorrob : List Char := "corroboration_analysis".data

/-- The literal `75` assigned by `analysisData.confidence || 75`. -/
def num75 : JNum := ⟨false, ['7', '5'], [], none⟩

/-- JS `x || dflt`: the left value when truthy, otherwise the default. -/
def jsOr (x : Option Json) (dflt : Json) : Json :=
  match x with
  | some v => if truthy (some v) then v else dflt
  | none => dflt

/-- Stage 6 of the recovery pipeline (service-worker lines 241-251):
the truthiness validation
`if (!analysisData.credibility_score || !analysisData.reasoning_summary)`
followed by the three `||`-defaulting assignments. Property access on a
parsed `null` throws a `TypeError` that escapes past the parse handler. -/
def validateAndDefault (j : Json) : Except RecErr Json :=
  match j with
  | .null => .error .jsTypeError
  | _ =>
    if !truthy (getProp j keyScore) || !truthy (getProp j keySummary) then
      .error .missingRequiredField
    else
      let j1 := setProp j keyConfidence (jsOr (getProp j keyConfidence) (.num num75))
      let j2 := setProp j1 keyLeaning (jsOr (getProp j1 keyLeaning) (.str "Neutral".data))
      let j3 := setProp j2 keyCorrob (jsOr (getProp j2 keyCorrob) (.arr []))
      .ok j3

/-- Stages 2-6 of the recovery pipeline, applied to the fence-stripped,
trimmed reply. -/
def recoverCore (cleaned : List Char) : Except RecErr Json :=
  let isolated := extractSpan cleaned
  let normalised := applyQuoted isolated
  let repaired := repairBrackets normalised
  match parseJson repaired with
  | none => .error .malformedJson
  | some j => validateAndDefault j

/-- The response-recovery pipeline of `callGeminiAPI` (service-worker
lines 204-252): fence stripping and trimming, object isolation,
embedded-whitespace normalisation, bracket-balance repair, `JSON.parse`,
truthiness validation and `||`-defaulting. -/
def recover (raw : List Char) : Except RecErr Json :=
  recoverCore (trimWs (stripFences raw))

example : recover "```json\n\x7b\"credibility_score\": 82, \"reasoning_summary\": \"Well-sourced,\nbalanced\"\x7d\n```".data =
    .ok (.obj [(keyScore, .num ⟨false, ['8', '2'], [], none⟩),
      (keySummary, .str "Well-sourced, balanced".data),
      (keyConfidence, .num num75),
      (keyLeaning, .str "Neutral".data),
      (keyCorrob, .arr [])]) := rfl

example : recover "\x7b\"credibility_score\": 40, \"reasoning_summary\": \"Thin sourcing\"".data =
    .ok (.obj [(keyScore, .num ⟨false, ['4', '0'], [], none⟩),
      (keySummary, .str "Thin sourcing".data),
      (keyConfidence, .num num75),
      (keyLeaning, .str "Neutral".data),
      (keyCorrob, .arr [])]) := rfl

example : recover "Sure, here you go: \x7b\"credibility_score\": 40, \"reasoning_summary\": \"Thin sourcing\"".data =
    .error .malformedJson := rfl

example : recover "null".data = .error .jsTypeError := rfl

/-- One element of `candidate.content.parts`; the `text` field may be
absent. -/
structure ReplyPart where
  text : Option (List Char)

/-- The `content` member of a candidate; its `parts` member may be
absent. -/
structure Content where
  parts : Option (List ReplyPart)

/-- One element of the success envelope's `candidates` array. -/
structure Candidate where
  finishReason : Option String
  content : Option Content

/-- The upstream success envelope as far as `callGeminiAPI` inspects
it: `promptFeedback.blockReason` (when present) and `candidates`. An
absent `candidates` member and an empty array behave identically. -/
structure Envelope where
  blockReason : Option String
  candidates : List Candidate

/-- JS truthiness of an optional string (absent and `""` are falsy). -/
def truthyStr : Option String → Bool
  | none => false
  | some s => !s.isEmpty

/-- The post-response logic of `callGeminiAPI` (service-worker lines
167-252): safety-block check, empty-candidates check, finish-reason
handling (`SAFETY` and `MAX_TOKENS` throw, anything else merely warns),
content-envelope checks, then the recovery pipeline on
`candidate.content.parts[0].text`. An empty `parts` array throws a
`TypeError` outside the parse `try`; an absent `text` makes
`responseText.replace` throw inside it, which the parse handler reports
as a parse failure. -/
def processEnvelope (e : Envelope) : Except RecErr Json :=
  if truthyStr e.blockReason then .error .contentBlocked
  else
    match e.candidates with
    | [] => .error .noResponse
    | c :: _ =>
      let frErr : Option RecErr :=
        match c.finishReason with
        | none => none
        | some fr =>
          if fr ≠ "" ∧ fr ≠ "STOP" then
            if fr = "SAFETY" then some .contentBlocked
            else if fr = "MAX_TOKENS" then some .truncatedResponse
            else none
          else none
      match frErr with
      | some err => .error err
      | none =>
        match c.content with
        | none => .error .invalidUpstreamShape
        | some content =>
          match content.parts with
          | none => .error .invalidUpstreamShape
          | some [] => .error .jsTypeError
          | some (p :: _) =>
            match p.text with
            | none => .error .malformedJson
            | some txt => recover txt

/-- The last `n` elements of a list, JS `array.slice(-n)` (the whole
list when it is shorter than `n`). -/
def lastN {α : Type} (n : Nat) (l : List α) : List α := l.drop (l.length - n)

/-- One append to the history log in `saveToHistory`: push the new
entry, then keep only the last 20 entries via `history.slice(-20)`. The
entry type is abstract; the source stores `\x7burl, title, score,
timestamp\x7d` records. -/
def appendHistory {α : Type} (log : List α) (e : α) : List α :=
  lastN 20 (log ++ [e])

/-- A document as the extractors observe it: each CSS selector either
matches an element with some `innerText`, or matches nothing; plus the
`document.body.innerText`. -/
structure Doc where
  query : String → Option (List Char)
  body : List Char

/-- The service worker's fixed selector list (lines 55-64). -/
def swSelectors : List String :=
  ["article", "[role=\"article\"]", "main article", ".article-content",
   ".post-content", ".entry-content", "main", ".content"]

/-- The content script's fixed selector list (lines 29-40). -/
def csSelectors : List String :=
  ["article", "[role=\"article\"]", "main article", ".article-content",
   ".post-content", ".entry-content", ".story-body", ".article-body",
   "main", ".content"]

/-- The service worker's selector loop (lines 68-74): take the
`innerText` of the first selector whose element exists — empty or not —
and stop; the empty string when no selector matches. -/
def firstFound (d : Doc) : List String → List Char
  | [] => []
  | s :: rest =>
    match d.query s with
    | some t => t
    | none => firstFound d rest

/-- `extractArticleContent` of the service worker (lines 47-90): first
existing selector match, body fallback when that text is empty or its
trimmed length is below 100, truncation to 3000 characters. -/
def extractArticleContent (d : Doc) : List Char :=
  let articleText := firstFound d swSelectors
  let finalText :=
    if articleText = [] ∨ (trimWs articleText).length < 100 then d.body
    else articleText
  finalText.take 3000

/-- The content script's selector loop (lines 44-52): each existing
selector overwrites `articleText`; the loop stops early only when the
trimmed text exceeds 200 characters. -/
def csLoop (d : Doc) : List String → List Char → List Char
  | [], acc => acc
  | s :: rest, acc =>
    match d.query s with
    | some t => if 200 < (trimWs t).length then t else csLoop d rest t
    | none => csLoop d rest acc

/-- Streaming form of JS `replace(/\n\x7b3,\x7d/g, '\n\n')`: within each
maximal newline run, at most two newlines are emitted; the counter is
the number already emitted for the current run. -/
def nl3Go : Nat → List Char → List Char
  | _, [] => []
  | k, c :: r =>
    if c = '\n' then
      if k < 2 then '\n' :: nl3Go (k + 1) r else nl3Go k r
    else c :: nl3Go 0 r

/-- JS `replace(/\n\x7b3,\x7d/g, '\n\n')`: runs of three or more
newlines become exactly two. -/
def collapseNl3 (l : List Char) : List Char := nl3Go 0 l

/-- `extractArticleText` of the content script (lines 27-67): selector
loop with early exit over 200 trimmed characters, body fallback below
200, whitespace cleanup, truncation to 5000 characters. -/
def extractArticleText (d : Doc) : List Char :=
  let articleText := csLoop d csSelectors []
  let chosen :=
    if articleText = [] ∨ (trimWs articleText).length < 200 then d.body
    else articleText
  (trimWs (collapseNl3 (collapseWs chosen))).take 5000

example : extractArticleContent ⟨fun _ => none, "short".data⟩ = "short".data := rfl
example : nl3Go 0 "a\n\n\n\n\nb\n\nc".data = "a\n\nb\n\nc".data := rfl

/-- Modelled from the spec's words for stage 3 ("within each
quoted-string literal found in the candidate text"): the body of a
quoted-string literal extends to the next quote that is not preceded by
a backslash escape, escapes kept verbatim; `none` when the literal is
unterminated. This is the escape-aware counterpart of `splitAtQuote`. -/
def specTakeLit : List Char → Option (List Char × List Char)
  | [] => none
  | c :: r =>
    if c = '\\' then
      match r with
      | [] => none
      | e :: r2 =>
        match specTakeLit r2 with
        | some (a, b) => some ('\\' :: e :: a, b)
        | none => none
    else if c = '"' then some ([], r)
    else
      match specTakeLit r with
      | some (a, b) => some (c :: a, b)
      | none => none

/-- Fuelled scanner for the spec's reading of stage 3: identical to
`applyQuotedF` except that string-literal boundaries honour backslash
escapes. -/
def specCollapseF : Nat → List Char → List Char
  | 0, l => l
  | f + 1, l =>
    match l with
    | [] => []
    | c :: r =>
      if c = '"' then
        match specTakeLit r with
        | some (a, b) => normMatch ('"' :: a ++ ['"']) ++ specCollapseF f b
        | none => c :: r
      else c :: specCollapseF f r

/-- Modelled from the spec: the claimed stage-3 transform, collapsing
whitespace runs inside each (escape-aware) quoted-string literal and
touching nothing outside. -/
def specCollapse (l : List Char) : List Char := specCollapseF l.length l

/-- Modelled from the claim's words for C9: the first selector of the
list whose match is non-empty (a selector matching an element with empty
text is passed over). -/
def firstNonEmptyMatch (d : Doc) : List String → Option (List Char)
  | [] => none
  | s :: rest =>
    match d.query s with
    | some t => if t = [] then firstNonEmptyMatch d rest else some t
    | none => firstNonEmptyMatch d rest

/-- Modelled from the claim's words for C9: take the first non-empty
selector match; if no selector matches or the matched text is below the
threshold, use the body; truncate the final string to the cap. -/
def claimExtract (d : Doc) (sels : List String) (threshold cap : Nat) : List Char :=
  match firstNonEmptyMatch d sels with
  | some t => if (trimWs t).length < threshold then d.body.take cap else t.take cap
  | none => d.body.take cap

/-- First selector of the list whose element exists at all, empty text
included (the actual loop criterion of the service worker). -/
def firstExisting (d : Doc) : List String → Option (List Char)
  | [] => none
  | s :: rest =>
    match d.query s with
    | some t => some t
    | none => firstExisting d rest

/-- Amended reading of C9 for the service worker: the text of the first
selector whose element exists; the body when no selector matches, the
text is empty, or its trimmed length is below 100; truncated to 3000. -/
def swAmendedSpec (d : Doc) : List Char :=
  match firstExisting d swSelectors with
  | some t =>
    if t = [] ∨ (trimWs t).length < 100 then d.body.take 3000 else t.take 3000
  | none => d.body.take 3000

/-- Amended reading of the content-script loop: the first matched text
whose trimmed length exceeds 200 if any, otherwise the last matched
text, otherwise the empty string. -/
def csAmendedChoice (matched : List (List Char)) : List Char :=
  match matched.find? (fun t => 200 < (trimWs t).length) with
  | some t => t
  | none => (matched.getLast?).getD []

/-- Amended reading of C9 for the content script: selector choice per
`csAmendedChoice` over all matched texts, body fallback below a trimmed
length of 200, whitespace cleanup, truncation to 5000. -/
def csAmendedSpec (d : Doc) : List Char :=
  let t := csAmendedChoice (csSelectors.filterMap d.query)
  let chosen := if t = [] ∨ (trimWs t).length < 200 then d.body else t
  (trimWs (collapseNl3 (collapseWs chosen))).take 5000

/-- The recovery pipeline can only fail with the parse-stage error, the
validation error, or the null-access TypeError; the spec's `NoJsonFound`
kind is never produced. -/
theorem validateAndDefault_ne_noJsonFound (j : Json) :
    validateAndDefault j ≠ .error .noJsonFound := by
  cases j <;> simp only [validateAndDefault] <;> (try split) <;> simp

theorem recover_ne_noJsonFound (t : List Char) :
    recover t ≠ .error .noJsonFound := by
  unfold recover recoverCore
  rcases hp : parseJson (repairBrackets (applyQuoted (extractSpan (trimWs (stripFences t))))) with _ | j
  · simp [hp]
  · simpa [hp] using validateAndDefault_ne_noJsonFound j

/-- C1: with `credibility_score: 0` and `reasoning_summary: "ok"` both
present, the parsed object carries both required fields, yet the
pipeline rejects it with the missing-required-field error, because the
validation tests JS truthiness (`!analysisData.credibility_score`)
rather than presence; the same reply with score 1 is accepted. -/
theorem C1_truthiness_rejects_present_fields :
    parseJson "\x7b\"credibility_score\": 0, \"reasoning_summary\": \"ok\"\x7d".data =
      some (.obj [(keyScore, .num ⟨false, ['0'], [], none⟩),
        (keySummary, .str "ok".data)]) ∧
    recover "\x7b\"credibility_score\": 0, \"reasoning_summary\": \"ok\"\x7d".data =
      .error .missingRequiredField ∧
    recover "\x7b\"credibility_score\": 1, \"reasoning_summary\": \"ok\"\x7d".data =
      .ok (.obj [(keyScore, .num ⟨false, ['1'], [], none⟩),
        (keySummary, .str "ok".data),
        (keyConfidence, .num num75),
        (keyLeaning, .str "Neutral".data),
        (keyCorrob, .arr [])]) :=
  ⟨rfl, rfl, rfl⟩

/-- C3 counterexample: the reply `hello` has no `\x7b...\x7d` span after
fence stripping, and the pipeline fails with the parse-stage
`MalformedJson`, not with a distinct `NoJsonFound` error. -/
theorem C3_counterexample :
    braceSpan (trimWs (stripFences "hello".data)) = [] ∧
    recover "hello".data = .error .malformedJson ∧
    recover "hello".data ≠ .error .noJsonFound := by
  refine ⟨rfl, rfl, ?_⟩
  intro h
  exact absurd (Except.error.inj h) (by decide)

/-- C3 amended: when no brace span exists, the isolation stage passes
the text through unchanged and the pipeline never raises a `NoJsonFound`
error (the code defines no such path); failure, if any, surfaces at a
later stage. -/
theorem C3_no_span_passthrough (t : List Char)
    (h : braceSpan (trimWs (stripFences t)) = []) :
    extractSpan (trimWs (stripFences t)) = trimWs (stripFences t) ∧
    recover t ≠ .error .noJsonFound := by
  constructor
  · simp [extractSpan, h]
  · exact recover_ne_noJsonFound t

theorem C3_no_span_passthrough_witness :
    braceSpan (trimWs (stripFences "hello".data)) = [] ∧
    (extractSpan (trimWs (stripFences "hello".data)) = trimWs (stripFences "hello".data) ∧
      recover "hello".data ≠ .error .noJsonFound) :=
  ⟨rfl, C3_no_span_passthrough "hello".data rfl⟩

/-- C5 counterexample: `\x7b"a": "b\x7bc"\x7d` is valid JSON; removing
its single trailing `\x7d` leaves a candidate whose only defect is that
one missing closer, yet the repair stage counts the `\x7b` inside the
string literal too, appends two closers instead of one, and the repaired
candidate does not parse. -/
theorem C5_counterexample :
    parseJson "\x7b\"a\": \"b\x7bc\"\x7d".data =
      some (.obj [(['a'], .str "b\x7bc".data)]) ∧
    repairBrackets "\x7b\"a\": \"b\x7bc\"".data =
      "\x7b\"a\": \"b\x7bc\"\x7d\x7d".data ∧
    parseJson (repairBrackets "\x7b\"a\": \"b\x7bc\"".data) = none :=
  ⟨rfl, rfl, rfl⟩

/-- C5 amended: the repair stage appends exactly the counted deficit —
all missing `]` before all missing `\x7d`, counting every occurrence
including those inside string literals. When the candidate's counted
deficits are `a` brackets and `b` braces and appending `]`^a then
`\x7d`^b yields a parseable text (as is the case for a truncation that
removed exactly that suffix), the repair restores that text exactly and
it parses. -/
theorem C5_repair_restores_counted_suffix (u : List Char) (a b : Nat) (v : Json)
    (hbk : u.count '[' = u.count ']' + a)
    (hbr : u.count '\x7b' = u.count '\x7d' + b)
    (hp : parseJson (u ++ (List.replicate a ']' ++ List.replicate b '\x7d')) = some v) :
    repairBrackets u = u ++ (List.replicate a ']' ++ List.replicate b '\x7d') ∧
    parseJson (repairBrackets u) = some v := by
  have hrep : repairBrackets u = u ++ (List.replicate a ']' ++ List.replicate b '\x7d') := by
    unfold repairBrackets
    dsimp only
    have h1 : (if u.count ']' < u.count '[' then
        List.replicate (u.count '[' - u.count ']') ']' else []) = List.replicate a ']' := by
      split
      · congr 1
        omega
      · have ha : a = 0 := by omega
        simp [ha]
    have h2 : (if u.count '\x7d' < u.count '\x7b' then
        List.replicate (u.count '\x7b' - u.count '\x7d') '\x7d' else []) = List.replicate b '\x7d' := by
      split
      · congr 1
        omega
      · have hb : b = 0 := by omega
        simp [hb]
    rw [h1, h2, List.append_assoc]
  exact ⟨hrep, by rw [hrep]; exact hp⟩

theorem C5_repair_restores_counted_suffix_witness :
    "\x7b\"corroboration_analysis\": [1".data.count '[' =
      "\x7b\"corroboration_analysis\": [1".data.count ']' + 1 ∧
    "\x7b\"corroboration_analysis\": [1".data.count '\x7b' =
      "\x7b\"corroboration_analysis\": [1".data.count '\x7d' + 1 ∧
    (repairBrackets "\x7b\"corroboration_analysis\": [1".data =
        "\x7b\"corroboration_analysis\": [1".data ++
          (List.replicate 1 ']' ++ List.replicate 1 '\x7d') ∧
      parseJson (repairBrackets "\x7b\"corroboration_analysis\": [1".data) =
        some (.obj [(keyCorrob, .arr [.num ⟨false, ['1'], [], none⟩])])) :=
  ⟨by decide, by decide,
    C5_repair_restores_counted_suffix "\x7b\"corroboration_analysis\": [1".data 1 1
      (.obj [(keyCorrob, .arr [.num ⟨false, ['1'], [], none⟩])])
      (by decide) (by decide) rfl⟩

theorem lookupKV_insertKV_self (fs : List (List Char × Json)) (k : List Char) (v : Json) :
    lookupKV (insertKV fs k v) k = some v := by
  induction fs with
  | nil => simp [insertKV, lookupKV]
  | cons kv r ih =>
    obtain ⟨k0, v0⟩ := kv
    by_cases h : k0 = k
    · simp [insertKV, lookupKV, h]
    · simp [insertKV, lookupKV, h, ih]

theorem lookupKV_insertKV_ne (fs : List (List Char × Json)) (k : List Char) (v : Json)
    (k' : List Char) (h : k' ≠ k) :
    lookupKV (insertKV fs k v) k' = lookupKV fs k' := by
  induction fs with
  | nil => simp [insertKV, lookupKV, Ne.symm h]
  | cons kv r ih =>
    obtain ⟨k0, v0⟩ := kv
    by_cases hk : k0 = k
    · subst hk
      simp [insertKV, lookupKV, Ne.symm h]
    · simp [insertKV, lookupKV, hk, ih]

/-- C2 counterexample: a reply supplying `confidence: 0` (present!) is
recovered with `confidence` equal to 75, not to the supplied value,
because the defaulting is `analysisData.confidence || 75` and `0` is
falsy. -/
theorem C2_counterexample :
    recover "\x7b\"credibility_score\": 50, \"reasoning_summary\": \"x\", \"confidence\": 0\x7d".data =
      .ok (.obj [(keyScore, .num ⟨false, ['5', '0'], [], none⟩),
        (keySummary, .str "x".data),
        (keyConfidence, .num num75),
        (keyLeaning, .str "Neutral".data),
        (keyCorrob, .arr [])]) ∧
    num75 ≠ (⟨false, ['0'], [], none⟩ : JNum) :=
  ⟨rfl, by decide⟩

/-- C2 amended: for every parsed object whose `credibility_score` and
`reasoning_summary` are truthy, recovery's validation stage succeeds,
and each of the three optional fields of the result equals the JS
`||`-default of its supplied value: the supplied value when that value
is truthy, and the default (75, "Neutral", []) when the field is absent
or its value is falsy (0, "", false, null). In particular absence never
causes failure. -/
theorem C2_defaulting (fs : List (List Char × Json))
    (h1 : truthy (getProp (.obj fs) keyScore) = true)
    (h2 : truthy (getProp (.obj fs) keySummary) = true) :
    ∃ fs',
      validateAndDefault (.obj fs) = .ok (.obj fs') ∧
      lookupKV fs' keyConfidence = some (jsOr (lookupKV fs keyConfidence) (.num num75)) ∧
      lookupKV fs' keyLeaning = some (jsOr (lookupKV fs keyLeaning) (.str "Neutral".data)) ∧
      lookupKV fs' keyCorrob = some (jsOr (lookupKV fs keyCorrob) (.arr [])) := by
  have hcl : keyLeaning ≠ keyConfidence := by decide
  have hbc : keyCorrob ≠ keyConfidence := by decide
  have hbl : keyCorrob ≠ keyLeaning := by decide
  refine ⟨insertKV (insertKV (insertKV fs keyConfidence
      (jsOr (lookupKV fs keyConfidence) (.num num75))) keyLeaning
      (jsOr (lookupKV fs keyLeaning) (.str "Neutral".data))) keyCorrob
      (jsOr (lookupKV fs keyCorrob) (.arr [])), ?_, ?_, ?_, ?_⟩
  · simp only [validateAndDefault, h1, h2, Bool.not_true, Bool.or_self,
      Bool.false_eq_true, if_false]
    simp only [setProp, getProp, lookupKV_insertKV_ne _ _ _ _ hcl,
      lookupKV_insertKV_ne _ _ _ _ hbc, lookupKV_insertKV_ne _ _ _ _ hbl]
  · rw [lookupKV_insertKV_ne _ _ _ _ hbc.symm, lookupKV_insertKV_ne _ _ _ _ hcl.symm,
      lookupKV_insertKV_self]
  · rw [lookupKV_insertKV_ne _ _ _ _ hbl.symm, lookupKV_insertKV_self]
  · rw [lookupKV_insertKV_self]

theorem C2_defaulting_witness :
    truthy (getProp (.obj [(keyScore, .num ⟨false, ['9'], [], none⟩),
        (keySummary, .str "s".data)]) keyScore) = true ∧
    truthy (getProp (.obj [(keyScore, .num ⟨false, ['9'], [], none⟩),
        (keySummary, .str "s".data)]) keySummary) = true ∧
    (∃ fs',
      validateAndDefault (.obj [(keyScore, .num ⟨false, ['9'], [], none⟩),
          (keySummary, .str "s".data)]) = .ok (.obj fs') ∧
      lookupKV fs' keyConfidence =
        some (jsOr (lookupKV [(keyScore, .num ⟨false, ['9'], [], none⟩),
          (keySummary, .str "s".data)] keyConfidence) (.num num75)) ∧
      lookupKV fs' keyLeaning =
        some (jsOr (lookupKV [(keyScore, .num ⟨false, ['9'], [], none⟩),
          (keySummary, .str "s".data)] keyLeaning) (.str "Neutral".data)) ∧
      lookupKV fs' keyCorrob =
        some (jsOr (lookupKV [(keyScore, .num ⟨false, ['9'], [], none⟩),
          (keySummary, .str "s".data)] keyCorrob) (.arr []))) :=
  ⟨rfl, rfl,
    C2_defaulting [(keyScore, .num ⟨false, ['9'], [], none⟩),
      (keySummary, .str "s".data)] rfl rfl⟩

theorem splitAtQuote_shape (r a b : List Char) (h : splitAtQuote r = some (a, b)) :
    r = a ++ '"' :: b := by
  induction r generalizing a with
  | nil => simp [splitAtQuote] at h
  | cons c r' ih =>
    by_cases hq : c = '"'
    · subst hq
      simp [splitAtQuote] at h
      obtain ⟨ha, hb⟩ := h
      subst ha; subst hb; rfl
    · simp only [splitAtQuote, if_neg hq] at h
      cases hs : splitAtQuote r' with
      | none => rw [hs] at h; simp at h
      | some ab =>
        obtain ⟨a', b'⟩ := ab
        rw [hs] at h
        simp at h
        obtain ⟨ha, hb⟩ := h
        subst hb
        rw [← ha]
        simpa using ih a' hs

theorem specTakeLit_eq_splitAtQuote (r : List Char) (h : '\\' ∉ r) :
    specTakeLit r = splitAtQuote r := by
  induction r with
  | nil => rfl
  | cons c r' ih =>
    have hc : c ≠ '\\' := fun hx => h (hx ▸ List.mem_cons_self c r')
    have hr : '\\' ∉ r' := fun hx => h (List.mem_cons_of_mem c hx)
    rw [specTakeLit.eq_def, splitAtQuote.eq_def]
    dsimp only
    rw [if_neg hc]
    by_cases hq : c = '"'
    · rw [if_pos hq, if_pos hq]
    · rw [if_neg hq, if_neg hq, ih hr]

theorem applyQuotedF_eq_specCollapseF (f : Nat) :
    ∀ l : List Char, '\\' ∉ l → applyQuotedF f l = specCollapseF f l := by
  induction f with
  | zero => intro l _; rfl
  | succ f ih =>
    intro l h
    cases l with
    | nil => rfl
    | cons c r =>
      have hr : '\\' ∉ r := fun hx => h (List.mem_cons_of_mem c hx)
      simp only [applyQuotedF, specCollapseF]
      by_cases hq : c = '"'
      · rw [if_pos hq, if_pos hq, specTakeLit_eq_splitAtQuote r hr]
        cases hs : splitAtQuote r with
        | none => rfl
        | some ab =>
          obtain ⟨a, b⟩ := ab
          have hb : '\\' ∉ b := by
            have hshape := splitAtQuote_shape r a b hs
            intro hm
            exact hr (hshape ▸ List.mem_append_right a (List.mem_cons_of_mem '"' hm))
          dsimp only
          rw [ih b hb]
      · rw [if_neg hq, if_neg hq, ih r hr]

/-- C4 counterexample: in the candidate `"a\"b  c"` — one string literal
whose body contains an escaped quote and a two-space run — the code's
stage 3 changes nothing (the escaped quote terminates the regex match
`"[^"]*"`, leaving the spaces outside any match), whereas the claimed
transform collapses the run inside the literal. -/
theorem C4_counterexample :
    applyQuoted "\"a\\\"b  c\"".data = "\"a\\\"b  c\"".data ∧
    specCollapse "\"a\\\"b  c\"".data = "\"a\\\"b c\"".data ∧
    applyQuoted "\"a\\\"b  c\"".data ≠ specCollapse "\"a\\\"b  c\"".data :=
  ⟨rfl, rfl, by decide⟩

/-- C4 amended: on any candidate text free of backslashes the code's
stage 3 agrees exactly with the claimed transform — whitespace runs
inside each quoted span collapse to one space, characters outside quoted
spans (and a trailing unterminated literal) are untouched; texts whose
string literals contain backslash escapes are excluded, for on them the
regex mis-detects the literal boundaries. -/
theorem C4_no_escape_agreement (l : List Char) (h : '\\' ∉ l) :
    applyQuoted l = specCollapse l :=
  applyQuotedF_eq_specCollapseF l.length l h

theorem C4_no_escape_agreement_witness :
    '\\' ∉ "\x7b\"credibility_score\": 1, \"reasoning_summary\": \"a\n b\"\x7d".data ∧
    applyQuoted "\x7b\"credibility_score\": 1, \"reasoning_summary\": \"a\n b\"\x7d".data =
      specCollapse "\x7b\"credibility_score\": 1, \"reasoning_summary\": \"a\n b\"\x7d".data :=
  ⟨by decide,
    C4_no_escape_agreement
      "\x7b\"credibility_score\": 1, \"reasoning_summary\": \"a\n b\"\x7d".data
      (by decide)⟩

theorem lastN_append_lastN {α : Type} (n : Nat) (xs ys : List α) :
    lastN n (lastN n xs ++ ys) = lastN n (xs ++ ys) := by
  unfold lastN
  have hk : xs.length - n ≤ xs.length := Nat.sub_le _ _
  have h1 : xs.drop (xs.length - n) ++ ys = (xs ++ ys).drop (xs.length - n) := by
    rw [List.drop_append_eq_append_drop, Nat.sub_eq_zero_of_le hk, List.drop_zero]
  rw [h1, List.drop_drop]
  congr 1
  simp only [List.length_drop, List.length_append]
  omega

theorem foldl_appendHistory {α : Type} (es : List α) :
    ∀ init : List α, init.length ≤ 20 →
      es.foldl appendHistory init = lastN 20 (init ++ es) := by
  induction es with
  | nil =>
    intro init h
    simp only [List.foldl_nil, List.append_nil, lastN, Nat.sub_eq_zero_of_le h,
      List.drop_zero]
  | cons e es ih =>
    intro init h
    rw [List.foldl_cons]
    have h2 : (appendHistory init e).length ≤ 20 := by
      unfold appendHistory lastN
      simp only [List.length_drop]
      omega
    rw [ih _ h2]
    unfold appendHistory
    rw [lastN_append_lastN, List.append_assoc, List.singleton_append]

/-- C8: starting from any log of at most 20 entries, any sequence of
appends (each `push` followed by `slice(-20)`) leaves at most 20
entries, and once more than 20 entries have been appended the log is
exactly the last 20 appended entries in insertion order, the oldest
evicted first. -/
theorem C8_history_bounded {α : Type} (init : List α) (es : List α)
    (h : init.length ≤ 20) :
    (es.foldl appendHistory init).length ≤ 20 ∧
    (20 < es.length → es.foldl appendHistory init = lastN 20 es) := by
  constructor
  · rw [foldl_appendHistory es init h]
    unfold lastN
    simp only [List.length_drop]
    omega
  · intro hgt
    rw [foldl_appendHistory es init h]
    unfold lastN
    rw [List.drop_append_eq_append_drop]
    rw [List.drop_eq_nil_of_le (by simp only [List.length_append]; omega)]
    rw [List.nil_append]
    congr 1
    simp only [List.length_append]
    omega

theorem C8_history_bounded_witness :
    ([] : List Nat).length ≤ 20 ∧
    (((List.range 25).foldl appendHistory ([] : List Nat)).length ≤ 20 ∧
      (20 < (List.range 25).length →
        (List.range 25).foldl appendHistory ([] : List Nat) = lastN 20 (List.range 25))) :=
  ⟨by decide, C8_history_bounded [] (List.range 25) (by decide)⟩

example : (List.range 25).foldl appendHistory ([] : List Nat) =
    [5, 6, 7, 8, 9, 10, 11, 12, 13, 14, 15, 16, 17, 18, 19, 20, 21, 22, 23, 24] := by
  decide

/-- Document exhibiting the C9 divergence: the `article` element exists
with empty text, `[role="article"]` exists with 120 characters of
substantial text, nothing else matches. -/
def docC9 : Doc where
  query s :=
    if s = "article" then some []
    else if s = "[role=\"article\"]" then some (List.replicate 120 'a')
    else none
  body := List.replicate 150 'b'

/-- C9 counterexample: the claim's rule ("first selector whose match is
non-empty") would pick the 120-character `[role="article"]` text, but
the service worker stops at the first selector whose element exists at
all — here `article` with empty text — and therefore falls back to the
whole body. -/
theorem C9_counterexample :
    extractArticleContent docC9 = List.replicate 150 'b' ∧
    claimExtract docC9 swSelectors 100 3000 = List.replicate 120 'a' ∧
    extractArticleContent docC9 ≠ claimExtract docC9 swSelectors 100 3000 :=
  ⟨rfl, rfl, by decide⟩

theorem firstFound_eq_firstExisting (d : Doc) (sels : List String) :
    firstFound d sels = (firstExisting d sels).getD [] := by
  induction sels with
  | nil => rfl
  | cons s rest ih =>
    simp only [firstFound, firstExisting]
    cases d.query s with
    | none => exact ih
    | some t => rfl

theorem csLoop_characterised (d : Doc) (sels : List String) :
    ∀ acc : List Char,
      csLoop d sels acc =
        match (sels.filterMap d.query).find? (fun t => 200 < (trimWs t).length) with
        | some t => t
        | none => ((sels.filterMap d.query).getLast?).getD acc := by
  induction sels with
  | nil => intro acc; rfl
  | cons s rest ih =>
    intro acc
    simp only [csLoop, List.filterMap_cons]
    cases hq : d.query s with
    | none => exact ih acc
    | some t =>
      simp only []
      by_cases hp : 200 < (trimWs t).length
      · rw [if_pos hp]
        rw [List.find?_cons_of_pos _ (by simpa using hp)]
      · rw [if_neg hp]
        rw [List.find?_cons_of_neg _ (by simpa using hp)]
        rw [ih t]
        cases hf : (rest.filterMap d.query).find? (fun t => 200 < (trimWs t).length) with
        | some u => rfl
        | none =>
          cases hl : rest.filterMap d.query with
          | nil => simp [hl] at hf ⊢
          | cons x xs =>
            dsimp only
            rw [List.getLast?_cons_cons]
            cases hx : (x :: xs).getLast? with
            | none => simp at hx
            | some u => rfl

/-- C9 amended: the service worker returns the text of the first
selector whose element exists (even with empty text), falling back to
the body when no selector matches, the text is empty, or its trimmed
length is under 100, truncated to 3000 characters; the content script
returns the first matched text whose trimmed length exceeds 200 —
otherwise the last matched text — falling back to the body under a
trimmed length of 200, whitespace-normalised and truncated to 5000
characters. -/
theorem C9_extraction_characterised :
    (∀ d : Doc, extractArticleContent d = swAmendedSpec d) ∧
    (∀ d : Doc, extractArticleText d = csAmendedSpec d) := by
  constructor
  · intro d
    unfold extractArticleContent swAmendedSpec
    rw [firstFound_eq_firstExisting]
    cases firstExisting d swSelectors with
    | none => simp
    | some t =>
      dsimp only [Option.getD_some]
      by_cases hc : t = [] ∨ (trimWs t).length < 100
      · rw [if_pos hc, if_pos hc]
      · rw [if_neg hc, if_neg hc]
  · intro d
    unfold extractArticleText csAmendedSpec csAmendedChoice
    rw [csLoop_characterised d csSelectors []]

/-- C10: when the first candidate's `finishReason` is any value other
than `SAFETY` and `MAX_TOKENS` (e.g. `RECITATION`), the requester does
not fail on account of the finish reason — it processes the candidate
exactly as it would the same candidate with finish reason `STOP`. -/
theorem C10_finish_reason_ignored (bR : Option String) (c : Candidate)
    (rest : List Candidate) (r : String) (hfr : c.finishReason = some r)
    (h1 : r ≠ "SAFETY") (h2 : r ≠ "MAX_TOKENS") :
    processEnvelope ⟨bR, c :: rest⟩ =
      processEnvelope ⟨bR, { c with finishReason := some "STOP" } :: rest⟩ := by
  unfold processEnvelope
  by_cases hb : truthyStr bR
  · rw [if_pos hb, if_pos hb]
  · rw [if_neg hb, if_neg hb]
    dsimp only
    rw [hfr]
    dsimp only
    have hStop : ¬(("STOP" : String) ≠ "" ∧ ("STOP" : String) ≠ "STOP") := by simp
    rw [if_neg hStop]
    by_cases hr : r ≠ "" ∧ r ≠ "STOP"
    · rw [if_pos hr, if_neg h1, if_neg h2]
    · rw [if_neg hr]

theorem C10_finish_reason_ignored_witness :
    (Candidate.mk (some "RECITATION")
        (some ⟨some [⟨some "\x7b\"credibility_score\":9,\"reasoning_summary\":\"s\"\x7d".data⟩]⟩)).finishReason =
      some "RECITATION" ∧
    ("RECITATION" : String) ≠ "SAFETY" ∧
    ("RECITATION" : String) ≠ "MAX_TOKENS" ∧
    processEnvelope ⟨none, [Candidate.mk (some "RECITATION")
        (some ⟨some [⟨some "\x7b\"credibility_score\":9,\"reasoning_summary\":\"s\"\x7d".data⟩]⟩)]⟩ =
      processEnvelope ⟨none, [Candidate.mk (some "STOP")
        (some ⟨some [⟨some "\x7b\"credibility_score\":9,\"reasoning_summary\":\"s\"\x7d".data⟩]⟩)]⟩ :=
  ⟨rfl, by decide, by decide,
    C10_finish_reason_ignored none
      (Candidate.mk (some "RECITATION")
        (some ⟨some [⟨some "\x7b\"credibility_score\":9,\"reasoning_summary\":\"s\"\x7d".data⟩]⟩))
      [] "RECITATION" rfl (by decide) (by decide)⟩

example : processEnvelope ⟨none, [Candidate.mk (some "RECITATION")
    (some ⟨some [⟨some "\x7b\"credibility_score\":9,\"reasoning_summary\":\"s\"\x7d".data⟩]⟩)]⟩ =
    .ok (.obj [(keyScore, .num ⟨false, ['9'], [], none⟩),
      (keySummary, .str "s".data),
      (keyConfidence, .num num75),
      (keyLeaning, .str "Neutral".data),
      (keyCorrob, .arr [])]) := rfl

/-- The backtick character (written via its code point, 0x60). -/
def btk : Char := Char.ofNat 96

theorem leads_append_self (p x : List Char) : leads p (p ++ x) = true := by
  induction p with
  | nil => rfl
  | cons c ps ih => simp [leads, ih]

theorem leads_ext (p q l : List Char) : leads (p ++ q) (p ++ l) = leads q l := by
  induction p with
  | nil => rfl
  | cons c ps ih => simp [leads, ih]

theorem leads_means (p l : List Char) (h : leads p l = true) : ∃ s, l = p ++ s := by
  induction p generalizing l with
  | nil => exact ⟨l, rfl⟩
  | cons c ps ih =>
    cases l with
    | nil => simp [leads] at h
    | cons a as =>
      simp only [leads, Bool.and_eq_true, decide_eq_true_eq] at h
      obtain ⟨hc, hl⟩ := h
      obtain ⟨s, hs⟩ := ih as hl
      exact ⟨s, by rw [hs, hc, List.cons_append]⟩

theorem leads_longer (p q l : List Char) (h : leads (p ++ q) l = true) :
    leads p l = true := by
  induction p generalizing l with
  | nil => rfl
  | cons c ps ih =>
    cases l with
    | nil => simp [leads] at h
    | cons a as =>
      simp only [List.cons_append, leads, Bool.and_eq_true, decide_eq_true_eq] at h ⊢
      exact ⟨h.1, ih as h.2⟩

theorem leads_cons_ne (a : Char) (p : List Char) (c : Char) (l : List Char)
    (h : a ≠ c) : leads (a :: p) (c :: l) = false := by
  simp [leads, h]

theorem tail_append_ne {α : Type} (a b : List α) (h : a ≠ []) :
    (a ++ b).tail = a.tail ++ b := by
  cases a with
  | nil => exact absurd rfl h
  | cons x xs => rfl

theorem sfGo_succ_cons (n : Nat) (c : Char) (r : List Char) :
    sfGo (n + 1) (c :: r) = sfGo n r := rfl

theorem sfGo_skip (q : List Char) : ∀ x, sfGo q.length (q ++ x) = sfGo 0 x := by
  induction q with
  | nil => intro x; rfl
  | cons c q' ih =>
    intro x
    rw [List.length_cons, List.cons_append, sfGo_succ_cons, ih]

theorem sfGo_zero_cons (c : Char) (r : List Char) :
    sfGo 0 (c :: r) =
      if leads fenceJsonNl (c :: r) then sfGo 7 r
      else if leads fenceJson (c :: r) then sfGo 6 r
      else if leads fenceNlTicks (c :: r) then sfGo 3 r
      else if leads fenceTicks (c :: r) then sfGo 2 r
      else c :: sfGo 0 r := rfl

theorem sfGo_fjn (X : List Char) : sfGo 0 (fenceJsonNl ++ X) = sfGo 0 X := by
  have hs : fenceJsonNl = btk :: "``json\n".data := by decide
  rw [hs, List.cons_append, sfGo_zero_cons]
  rw [if_pos (show leads fenceJsonNl (btk :: ("``json\n".data ++ X)) = true by
    rw [← List.cons_append, ← hs]; exact leads_append_self _ _)]
  rw [show (7 : Nat) = ("``json\n".data).length by decide, sfGo_skip]

theorem sfGo_fj (X : List Char) (h : leads "\n".data X = false) :
    sfGo 0 (fenceJson ++ X) = sfGo 0 X := by
  have hs : fenceJson = btk :: "``json".data := by decide
  have hP1 : leads fenceJsonNl (btk :: ("``json".data ++ X)) = false := by
    rw [← List.cons_append, ← hs,
      show fenceJsonNl = fenceJson ++ "\n".data by decide, leads_ext]
    exact h
  rw [hs, List.cons_append, sfGo_zero_cons,
    if_neg (show ¬leads fenceJsonNl (btk :: ("``json".data ++ X)) = true by
      rw [hP1]; exact Bool.false_ne_true)]
  rw [if_pos (show leads fenceJson (btk :: ("``json".data ++ X)) = true by
    rw [← List.cons_append, ← hs]; exact leads_append_self _ _)]
  rw [show (6 : Nat) = ("``json".data).length by decide, sfGo_skip]

theorem sfGo_nlt (X : List Char) : sfGo 0 (fenceNlTicks ++ X) = sfGo 0 X := by
  have hs : fenceNlTicks = '\n' :: fenceTicks := by decide
  have hP1 : leads fenceJsonNl ('\n' :: (fenceTicks ++ X)) = false := by
    rw [show fenceJsonNl = btk :: "``json\n".data by decide]
    exact leads_cons_ne _ _ _ _ (by decide)
  have hP2 : leads fenceJson ('\n' :: (fenceTicks ++ X)) = false := by
    rw [show fenceJson = btk :: "``json".data by decide]
    exact leads_cons_ne _ _ _ _ (by decide)
  rw [hs, List.cons_append, sfGo_zero_cons,
    if_neg (show ¬leads fenceJsonNl ('\n' :: (fenceTicks ++ X)) = true by
      rw [hP1]; exact Bool.false_ne_true),
    if_neg (show ¬leads fenceJson ('\n' :: (fenceTicks ++ X)) = true by
      rw [hP2]; exact Bool.false_ne_true)]
  rw [if_pos (show leads fenceNlTicks ('\n' :: (fenceTicks ++ X)) = true by
    rw [← List.cons_append, ← hs]; exact leads_append_self _ _)]
  rw [show (3 : Nat) = fenceTicks.length by decide, sfGo_skip]

theorem sfGo_ticks (X : List Char) (h : leads "json".data X = false) :
    sfGo 0 (fenceTicks ++ X) = sfGo 0 X := by
  have hs : fenceTicks = btk :: "``".data := by decide
  have hP1 : leads fenceJsonNl (fenceTicks ++ X) = false := by
    rw [show fenceJsonNl = fenceTicks ++ "json\n".data by decide, leads_ext]
    cases hb : leads "json\n".data X with
    | false => rfl
    | true =>
      exfalso
      have := leads_longer "json".data "\n".data X
        (by rw [show "json".data ++ "\n".data = "json\n".data by decide]; exact hb)
      rw [h] at this
      exact Bool.false_ne_true this
  have hP2 : leads fenceJson (fenceTicks ++ X) = false := by
    rw [show fenceJson = fenceTicks ++ "json".data by decide, leads_ext]
    exact h
  have hP3 : leads fenceNlTicks (fenceTicks ++ X) = false := by
    rw [hs, List.cons_append, show fenceNlTicks = '\n' :: fenceTicks by decide]
    exact leads_cons_ne _ _ _ _ (by decide)
  rw [hs, List.cons_append, sfGo_zero_cons]
  rw [if_neg (show ¬leads fenceJsonNl (btk :: ("``".data ++ X)) = true by
    rw [← List.cons_append, ← hs, hP1]; exact Bool.false_ne_true)]
  rw [if_neg (show ¬leads fenceJson (btk :: ("``".data ++ X)) = true by
    rw [← List.cons_append, ← hs, hP2]; exact Bool.false_ne_true)]
  rw [if_neg (show ¬leads fenceNlTicks (btk :: ("``".data ++ X)) = true by
    rw [← List.cons_append, ← hs, hP3]; exact Bool.false_ne_true)]
  rw [if_pos (show leads fenceTicks (btk :: ("``".data ++ X)) = true by
    rw [← List.cons_append, ← hs]; exact leads_append_self _ _)]
  rw [show (2 : Nat) = ("``".data).length by decide, sfGo_skip]

theorem sfGo_keep (c : Char) (r : List Char)
    (h1 : leads fenceJsonNl (c :: r) = false)
    (h2 : leads fenceJson (c :: r) = false)
    (h3 : leads fenceNlTicks (c :: r) = false)
    (h4 : leads fenceTicks (c :: r) = false) :
    sfGo 0 (c :: r) = c :: sfGo 0 r := by
  rw [sfGo_zero_cons,
    if_neg (show ¬leads fenceJsonNl (c :: r) = true by
      rw [h1]; exact Bool.false_ne_true),
    if_neg (show ¬leads fenceJson (c :: r) = true by
      rw [h2]; exact Bool.false_ne_true),
    if_neg (show ¬leads fenceNlTicks (c :: r) = true by
      rw [h3]; exact Bool.false_ne_true),
    if_neg (show ¬leads fenceTicks (c :: r) = true by
      rw [h4]; exact Bool.false_ne_true)]

theorem leads_split (q : List Char) :
    ∀ l x : List Char, leads q (l ++ x) = true →
      leads q l = true ∨ ∃ s, s ≠ [] ∧ q = l ++ s ∧ leads s x = true := by
  induction q with
  | nil => intro l x _; left; rfl
  | cons a qs ih =>
    intro l x h
    cases l with
    | nil => right; exact ⟨a :: qs, by simp, rfl, h⟩
    | cons c ls =>
      rw [List.cons_append] at h
      simp only [leads, Bool.and_eq_true, decide_eq_true_eq] at h ⊢
      obtain ⟨hac, h2⟩ := h
      rcases ih ls x h2 with hl | ⟨s, hs1, hs2, hs3⟩
      · left; exact ⟨hac, hl⟩
      · right; exact ⟨s, hs1, by rw [hs2, hac, List.cons_append], hs3⟩

theorem leads_boundary (q y : List Char) (hq : '\n' ∉ q)
    (h : leads q (y ++ fenceNlTicks) = true) : leads q y = true := by
  rcases leads_split q y fenceNlTicks h with hl | ⟨s, hs1, hs2, hs3⟩
  · exact hl
  · exfalso
    cases s with
    | nil => exact hs1 rfl
    | cons s0 s' =>
      have h0 : s0 = '\n' := by
        rw [show fenceNlTicks = '\n' :: fenceTicks by decide] at hs3
        simp only [leads, Bool.and_eq_true, decide_eq_true_eq] at hs3
        exact hs3.1
      have hmem : s0 ∈ q := hs2 ▸ List.mem_append_right y (List.mem_cons_self s0 s')
      rw [h0] at hmem
      exact hq hmem

theorem bool_eq_false (b : Bool) (h : ¬b = true) : b = false := by
  cases b
  · rfl
  · exact absurd rfl h

theorem leads_single (a c : Char) (y : List Char) :
    leads [a] (c :: y) = decide (a = c) := by
  simp [leads]

theorem strip_append_close (l : List Char) :
    sfGo 0 (l ++ fenceNlTicks) = sfGo 0 l := by
  have main : ∀ n : Nat, ∀ l : List Char, l.length ≤ n →
      sfGo 0 (l ++ fenceNlTicks) = sfGo 0 l := by
    intro n
    induction n with
    | zero =>
      intro l hl
      have : l = [] := List.length_eq_zero.mp (Nat.le_zero.mp hl)
      subst this
      decide
    | succ n ih =>
      intro l hl
      have hljn : fenceJsonNl.length = 8 := by decide
      have hlj : fenceJson.length = 7 := by decide
      have hlnt : fenceNlTicks.length = 4 := by decide
      have hlt : fenceTicks.length = 3 := by decide
      by_cases hP1 : leads fenceJsonNl l = true
      · obtain ⟨rest, hrest⟩ := leads_means _ _ hP1
        subst hrest
        rw [List.append_assoc, sfGo_fjn, sfGo_fjn]
        refine ih rest ?_
        rw [List.length_append, hljn] at hl
        omega
      · by_cases hP2 : leads fenceJson l = true
        · obtain ⟨rest, hrest⟩ := leads_means _ _ hP2
          subst hrest
          cases rest with
          | nil => simp only [List.append_nil]; decide
          | cons c' rest2 =>
            have hkey : leads ['\n'] (c' :: rest2) = false := by
              refine bool_eq_false _ fun hb => hP1 ?_
              rw [show fenceJsonNl = fenceJson ++ "\n".data by decide, leads_ext]
              exact hb
            have hd : decide (('\n' : Char) = c') = false := by
              rw [leads_single] at hkey
              exact hkey
            rw [List.append_assoc, List.cons_append,
              sfGo_fj _ (by rw [show ("\n".data : List Char) = ['\n'] from rfl,
                leads_single, hd]),
              sfGo_fj _ (by rw [show ("\n".data : List Char) = ['\n'] from rfl]
                            exact hkey)]
            refine ih (c' :: rest2) ?_
            rw [List.length_append, hlj] at hl
            rw [List.length_cons] at hl ⊢
            omega
        · by_cases hP3 : leads fenceNlTicks l = true
          · obtain ⟨rest, hrest⟩ := leads_means _ _ hP3
            subst hrest
            rw [List.append_assoc, sfGo_nlt, sfGo_nlt]
            refine ih rest ?_
            rw [List.length_append, hlnt] at hl
            omega
          · by_cases hP4 : leads fenceTicks l = true
            · obtain ⟨rest, hrest⟩ := leads_means _ _ hP4
              subst hrest
              have hJson : leads "json".data rest = false := by
                refine bool_eq_false _ fun hb => hP2 ?_
                rw [show fenceJson = fenceTicks ++ "json".data by decide, leads_ext]
                exact hb
              have hJson2 : leads "json".data (rest ++ fenceNlTicks) = false := by
                refine bool_eq_false _ fun hb => ?_
                have := leads_boundary "json".data rest (by decide) hb
                rw [hJson] at this
                exact Bool.false_ne_true this
              rw [List.append_assoc, sfGo_ticks _ hJson2, sfGo_ticks _ hJson]
              refine ih rest ?_
              rw [List.length_append, hlt] at hl
              omega
            · cases l with
              | nil => decide
              | cons c r =>
                have hticksApp : leads fenceTicks ((c :: r) ++ fenceNlTicks) = false := by
                  refine bool_eq_false _ fun hb => hP4 ?_
                  exact leads_boundary _ _ (by decide) hb
                have hA1 : leads fenceJsonNl ((c :: r) ++ fenceNlTicks) = false := by
                  refine bool_eq_false _ fun hb => ?_
                  have h2 := leads_longer fenceTicks "json\n".data _
                    (by rw [show fenceTicks ++ "json\n".data = fenceJsonNl by decide]
                        exact hb)
                  rw [hticksApp] at h2
                  exact Bool.false_ne_true h2
                have hA2 : leads fenceJson ((c :: r) ++ fenceNlTicks) = false := by
                  refine bool_eq_false _ fun hb => ?_
                  have h2 := leads_longer fenceTicks "json".data _
                    (by rw [show fenceTicks ++ "json".data = fenceJson by decide]
                        exact hb)
                  rw [hticksApp] at h2
                  exact Bool.false_ne_true h2
                have hA3 : leads fenceNlTicks ((c :: r) ++ fenceNlTicks) = false := by
                  refine bool_eq_false _ fun hb => hP3 ?_
                  rw [show fenceNlTicks = '\n' :: fenceTicks by decide] at hb ⊢
                  rw [List.cons_append] at hb
                  simp only [leads, Bool.and_eq_true, decide_eq_true_eq] at hb ⊢
                  exact ⟨hb.1, leads_boundary _ _ (by decide) hb.2⟩
                have hB1 : leads fenceJsonNl (c :: r) = false := bool_eq_false _ hP1
                have hB2 : leads fenceJson (c :: r) = false := bool_eq_false _ hP2
                have hB3 : leads fenceNlTicks (c :: r) = false := bool_eq_false _ hP3
                have hB4 : leads fenceTicks (c :: r) = false := bool_eq_false _ hP4
                rw [List.cons_append] at hA1 hA2 hA3 hticksApp
                rw [List.cons_append, sfGo_keep c (r ++ fenceNlTicks) hA1 hA2 hA3 hticksApp,
                  sfGo_keep c r hB1 hB2 hB3 hB4]
                have := ih r (by
                  rw [List.length_cons] at hl
                  omega)
                rw [this]
  exact main l.length l le_rfl

theorem trimWs_cons_ws (c : Char) (x : List Char) (h : isWs c = true) :
    trimWs (c :: x) = trimWs x := by
  unfold trimWs
  rw [List.dropWhile_cons_of_pos h]

/-- C7 counterexample: for the reply `t` that itself begins with an open
markdown fence (```` ```json\n5 ````), the bare-fence wrapping
`` ```\n t \n``` `` does not recover to the same result as `t`: the
stripper pairs the wrapper's newline with `t`'s own fence, the tag text
`json` leaks into the candidate, and parsing fails with `MalformedJson`,
while the unwrapped `t` reaches validation and fails with
`MissingRequiredField`. -/
theorem C7_counterexample :
    recover ("```\n".data ++ "```json\n5".data ++ fenceNlTicks) =
      .error .malformedJson ∧
    recover "```json\n5".data = .error .missingRequiredField ∧
    recover ("```\n".data ++ "```json\n5".data ++ fenceNlTicks) ≠
      recover "```json\n5".data := by
  refine ⟨rfl, rfl, ?_⟩
  intro h
  rw [show recover ("```\n".data ++ "```json\n5".data ++ fenceNlTicks) =
      .error .malformedJson from rfl,
    show recover "```json\n5".data = .error .missingRequiredField from rfl] at h
  exact absurd (Except.error.inj h) (by decide)

/-- C7 amended: wrapping any reply in a language-tagged fence
(`` ```json\n … \n``` ``) never changes the recovery result; wrapping in
a bare fence (`` ```\n … \n``` ``) never changes it provided the reply
does not itself begin with a `` ```json `` fence marker (when it does,
the stripper mis-pairs the fences and the results can differ). -/
theorem C7_fence_wrap (t : List Char) :
    recover (fenceJsonNl ++ t ++ fenceNlTicks) = recover t ∧
    (leads fenceJson t = false →
      recover ("```\n".data ++ t ++ fenceNlTicks) = recover t) := by
  constructor
  · unfold recover stripFences
    rw [List.append_assoc, sfGo_fjn, strip_append_close]
  · intro hnj
    unfold recover stripFences
    rw [List.append_assoc]
    rw [show ("```\n".data : List Char) ++ (t ++ fenceNlTicks) =
        fenceTicks ++ ('\n' :: (t ++ fenceNlTicks)) by
      rw [show ("```\n".data : List Char) = fenceTicks ++ ['\n'] by decide,
        List.append_assoc, List.singleton_append]]
    rw [sfGo_ticks _ (by
      rw [show ("json".data : List Char) = 'j' :: "son".data from rfl]
      exact leads_cons_ne _ _ _ _ (by decide))]
    by_cases ht : leads fenceTicks t = true
    · obtain ⟨rest, hrest⟩ := leads_means _ _ ht
      subst hrest
      rw [show ('\n' :: ((fenceTicks ++ rest) ++ fenceNlTicks) : List Char) =
          fenceNlTicks ++ (rest ++ fenceNlTicks) by
        rw [show fenceNlTicks = '\n' :: fenceTicks by decide, List.cons_append,
          List.append_assoc]]
      rw [sfGo_nlt, strip_append_close]
      have hJson : leads "json".data rest = false := by
        rw [← leads_ext fenceTicks, show fenceTicks ++ "json".data = fenceJson by decide]
        exact hnj
      rw [sfGo_ticks _ hJson]
    · have hnt : leads fenceNlTicks ('\n' :: (t ++ fenceNlTicks)) = false := by
        refine bool_eq_false _ fun hb => ht ?_
        rw [show fenceNlTicks = '\n' :: fenceTicks by decide] at hb
        simp only [leads, Bool.and_eq_true, decide_eq_true_eq] at hb
        exact leads_boundary _ _ (by decide) hb.2
      have h1 : leads fenceJsonNl ('\n' :: (t ++ fenceNlTicks)) = false := by
        rw [show fenceJsonNl = btk :: "``json\n".data by decide]
        exact leads_cons_ne _ _ _ _ (by decide)
      have h2 : leads fenceJson ('\n' :: (t ++ fenceNlTicks)) = false := by
        rw [show fenceJson = btk :: "``json".data by decide]
        exact leads_cons_ne _ _ _ _ (by decide)
      have h4 : leads fenceTicks ('\n' :: (t ++ fenceNlTicks)) = false := by
        rw [show fenceTicks = btk :: "``".data by decide]
        exact leads_cons_ne _ _ _ _ (by decide)
      rw [sfGo_keep '\n' (t ++ fenceNlTicks) h1 h2 hnt h4, strip_append_close,
        trimWs_cons_ws '\n' _ (by decide)]

theorem C7_fence_wrap_witness :
    recover (fenceJsonNl ++ "hello".data ++ fenceNlTicks) = recover "hello".data ∧
    recover ("```\n".data ++ "hello".data ++ fenceNlTicks) = recover "hello".data :=
  ⟨(C7_fence_wrap "hello".data).1, (C7_fence_wrap "hello".data).2 (by decide)⟩

theorem not_leads_of_btk (p l : List Char) (hp : btk ∈ p) (h : btk ∉ l) :
    leads p l = false := by
  refine bool_eq_false _ fun hb => ?_
  obtain ⟨s, hs⟩ := leads_means _ _ hb
  exact h (hs ▸ List.mem_append_left s hp)

theorem sfGo_id (l : List Char) (h : btk ∉ l) : sfGo 0 l = l := by
  induction l with
  | nil => rfl
  | cons c r ih =>
    have hr : btk ∉ r := fun hx => h (List.mem_cons_of_mem c hx)
    rw [sfGo_keep c r (not_leads_of_btk _ _ (by decide) h)
      (not_leads_of_btk _ _ (by decide) h)
      (not_leads_of_btk _ _ (by decide) h)
      (not_leads_of_btk _ _ (by decide) h), ih hr]

theorem dropWhile_append_cons_neg (p : Char → Bool) (q j' : List Char) (c : Char)
    (hc : ¬p c = true) :
    List.dropWhile p (q ++ c :: j') = List.dropWhile p q ++ c :: j' := by
  induction q with
  | nil =>
    rw [List.nil_append, List.dropWhile_cons_of_neg hc, List.dropWhile_nil,
      List.nil_append]
  | cons a q' ih =>
    by_cases ha : p a = true
    · rw [List.cons_append, List.dropWhile_cons_of_pos ha,
        List.dropWhile_cons_of_pos ha, ih]
    · rw [List.cons_append, List.dropWhile_cons_of_neg ha,
        List.dropWhile_cons_of_neg ha, List.cons_append]

theorem dropWhile_nil_of_all (p : Char → Bool) (q : List Char)
    (h : ∀ c ∈ q, p c = true) : List.dropWhile p q = [] := by
  induction q with
  | nil => rfl
  | cons a q' ih =>
    rw [List.dropWhile_cons_of_pos (h a (List.mem_cons_self a q'))]
    exact ih fun c hc => h c (List.mem_cons_of_mem a hc)

theorem dropWhile_ne_embed (b : Char) (q Y : List Char) (h : b ∉ q) :
    List.dropWhile (· ≠ b) (q ++ b :: Y) = b :: Y := by
  induction q with
  | nil => rw [List.nil_append, List.dropWhile_cons_of_neg (by simp)]
  | cons a q' ih =>
    have ha : a ≠ b := fun he => h (he ▸ List.mem_cons_self a q')
    rw [List.cons_append, List.dropWhile_cons_of_pos (by simpa using ha),
      ih fun hx => h (List.mem_cons_of_mem a hx)]

theorem braceSpan_embed (q1 mid q2 : List Char)
    (h1 : '\x7b' ∉ q1) (h2 : '\x7d' ∉ q2) :
    braceSpan (q1 ++ ('\x7b' :: (mid ++ ['\x7d'])) ++ q2) =
      '\x7b' :: (mid ++ ['\x7d']) := by
  unfold braceSpan
  rw [List.append_assoc, List.cons_append,
    dropWhile_ne_embed '\x7b' q1 ((mid ++ ['\x7d']) ++ q2) h1]
  rw [show ('\x7b' :: ((mid ++ ['\x7d']) ++ q2) : List Char).reverse =
      q2.reverse ++ '\x7d' :: (mid.reverse ++ ['\x7b']) by
    simp [List.reverse_cons, List.reverse_append]]
  rw [dropWhile_ne_embed '\x7d' q2.reverse (mid.reverse ++ ['\x7b'])
    fun hx => h2 (List.mem_reverse.mp hx)]
  simp [List.reverse_cons, List.reverse_append]

theorem trimWs_embed (p1 mid p2 : List Char) :
    trimWs (p1 ++ ('\x7b' :: (mid ++ ['\x7d'])) ++ p2) =
      (p1.dropWhile isWs) ++ ('\x7b' :: (mid ++ ['\x7d'])) ++
        (p2.reverse.dropWhile isWs).reverse := by
  unfold trimWs
  rw [List.append_assoc, List.cons_append,
    dropWhile_append_cons_neg isWs p1 ((mid ++ ['\x7d']) ++ p2) '\x7b' (by decide)]
  rw [show (List.dropWhile isWs p1 ++ '\x7b' :: ((mid ++ ['\x7d']) ++ p2)).reverse =
      p2.reverse ++ '\x7d' ::
        (mid.reverse ++ ('\x7b' :: (List.dropWhile isWs p1).reverse)) by
    simp [List.reverse_append, List.reverse_cons]]
  rw [dropWhile_append_cons_neg isWs p2.reverse
    (mid.reverse ++ ('\x7b' :: (List.dropWhile isWs p1).reverse)) '\x7d' (by decide)]
  simp [List.reverse_append, List.reverse_cons]

theorem recoverCore_congr (a b : List Char) (h : extractSpan a = extractSpan b) :
    recoverCore a = recoverCore b := by
  unfold recoverCore
  rw [h]

/-- C6 counterexample: with prose `\x7b ` (containing a brace) prepended
to a valid reply object, the isolation span starts at the prose's brace,
the bracket-repair stage appends an extra `\x7d`, and parsing fails —
while the bare object recovers successfully. -/
theorem C6_counterexample :
    recover ("\x7b ".data ++
        "\x7b\"credibility_score\":1,\"reasoning_summary\":\"x\"\x7d".data) =
      .error .malformedJson ∧
    recover "\x7b\"credibility_score\":1,\"reasoning_summary\":\"x\"\x7d".data =
      .ok (.obj [(keyScore, .num ⟨false, ['1'], [], none⟩),
        (keySummary, .str "x".data),
        (keyConfidence, .num num75),
        (keyLeaning, .str "Neutral".data),
        (keyCorrob, .arr [])]) ∧
    recover ("\x7b ".data ++
        "\x7b\"credibility_score\":1,\"reasoning_summary\":\"x\"\x7d".data) ≠
      recover "\x7b\"credibility_score\":1,\"reasoning_summary\":\"x\"\x7d".data := by
  refine ⟨rfl, rfl, ?_⟩
  intro h
  rw [show recover ("\x7b ".data ++
      "\x7b\"credibility_score\":1,\"reasoning_summary\":\"x\"\x7d".data) =
      .error .malformedJson from rfl] at h
  exact Except.noConfusion h

/-- C6 amended: surrounding a brace-delimited reply body with prose
leaves the recovered result unchanged, provided the prose before it
contains no `\x7b`, the prose after it contains no `\x7d`, and no
backtick occurs anywhere (braces in the prose shift the isolated span —
see the counterexample — and backticks would be eaten by fence
stripping). -/
theorem C6_prose_isolation (p1 mid p2 : List Char)
    (hbt : btk ∉ p1 ++ ('\x7b' :: (mid ++ ['\x7d'])) ++ p2)
    (h1 : '\x7b' ∉ p1) (h2 : '\x7d' ∉ p2) :
    recover (p1 ++ ('\x7b' :: (mid ++ ['\x7d'])) ++ p2) =
      recover ('\x7b' :: (mid ++ ['\x7d'])) := by
  have hbtj : btk ∉ ('\x7b' :: (mid ++ ['\x7d']) : List Char) := fun hx =>
    hbt (by simp at hx ⊢; tauto)
  unfold recover stripFences
  rw [sfGo_id _ hbt, sfGo_id _ hbtj]
  apply recoverCore_congr
  rw [trimWs_embed]
  have hj : trimWs ('\x7b' :: (mid ++ ['\x7d'])) = '\x7b' :: (mid ++ ['\x7d']) := by
    have h := trimWs_embed [] mid []
    simpa using h
  rw [hj]
  unfold extractSpan
  rw [braceSpan_embed (p1.dropWhile isWs) mid ((p2.reverse.dropWhile isWs).reverse)
    (fun hx => h1 ((List.dropWhile_sublist isWs).subset hx))
    (fun hx => h2 (List.mem_reverse.mp
      ((List.dropWhile_sublist isWs).subset (List.mem_reverse.mp hx))))]
  have hbs : braceSpan ('\x7b' :: (mid ++ ['\x7d'])) = '\x7b' :: (mid ++ ['\x7d']) := by
    have h := braceSpan_embed [] mid [] (by simp) (by simp)
    simpa using h
  rw [hbs, if_neg (by simp), if_neg (by simp)]

theorem C6_prose_isolation_witness :
    btk ∉ "Sure: ".data ++
      ('\x7b' :: ("\"credibility_score\":1,\"reasoning_summary\":\"x\"".data ++
        ['\x7d'])) ++ " ok".data ∧
    '\x7b' ∉ "Sure: ".data ∧
    '\x7d' ∉ " ok".data ∧
    recover ("Sure: ".data ++
        ('\x7b' :: ("\"credibility_score\":1,\"reasoning_summary\":\"x\"".data ++
          ['\x7d'])) ++ " ok".data) =
      recover ('\x7b' :: ("\"credibility_score\":1,\"reasoning_summary\":\"x\"".data ++
        ['\x7d'])) :=
  ⟨by decide, by decide, by decide,
    C6_prose_isolation "Sure: ".data
      "\"credibility_score\":1,\"reasoning_summary\":\"x\"".data " ok".data
      (by decide) (by decide) (by decide)⟩
